import Mathlib

/-!
Verification of the frame-extraction / enhancement pipeline of
`get-image-from-videos`.

The repository holds two variants of the main orchestration file.  The
current variant (the unnamed source file, called `part_001` below) has
cooperative cancellation, the 8-frame selection cap, crop support and the
`1/fps` sampling stride; the older variant (`src/App.tsx`) has the
evenly-spaced sampling formula and no cancellation or cap.  Both are
embedded below; definitions keep the source names.  The remote classifier
and enhancer (`src/services/geminiService.ts`) are modelled by passing
their per-call responses as function parameters: `none` stands for a
thrown (transport) error, `some` for the text / parts of a response.

Times and timestamps (JavaScript numbers) are idealised as rationals.
-/

namespace GetImage

/-- The `Gender` union type of `types.ts`: `Male | Female | All`. -/
inductive Gender where
  | Male : Gender
  | Female : Gender
  | All : Gender
deriving DecidableEq, Repr

/-- The string carried by each `Gender` value in the source. -/
def genderString : Gender → String
  | Gender.Male => "Male"
  | Gender.Female => "Female"
  | Gender.All => "All"

/-- The `ExtractedFrame` interface of `types.ts`: a timestamp plus the
JPEG data URL captured from the canvas. -/
structure ExtractedFrame where
  timestamp : ℚ
  dataUrl : String
deriving DecidableEq, Repr

/-- The `EnhancedImage` interface of `types.ts`.  The source id is the
string `` `${frame.timestamp}-${j}` ``; it is modelled structurally by the
pair `idTimestamp`, `idIndex`, and `renderId` below produces the character
codes of that string. -/
structure EnhancedImage where
  idTimestamp : ℚ
  idIndex : ℕ
  originalTimestamp : ℚ
  url : String
deriving DecidableEq, Repr

/-- The `VideoQueueItem.status` union of `types.ts`. -/
inductive VideoStatus where
  | queued : VideoStatus
  | processing : VideoStatus
  | done : VideoStatus
  | error : VideoStatus
deriving DecidableEq, Repr

/-- The `ProcessingState` union of `types.ts`: `idle | processing | done`. -/
inductive ProcessingState where
  | idle : ProcessingState
  | processing : ProcessingState
  | done : ProcessingState
deriving DecidableEq, Repr

/-- the JavaScript `String.prototype.toLowerCase` on the response text,
modelled character-wise on the underlying character list. -/
def toLowerString (s : String) : String := String.mk (s.data.map Char.toLower)

/-- the JavaScript `String.prototype.trim` on the response text: drop
whitespace from both ends. -/
def trimString (s : String) : String :=
  String.mk (((s.data.dropWhile Char.isWhitespace).reverse.dropWhile
    Char.isWhitespace).reverse)

/-- Model of `filterFrameByGender` from `src/services/geminiService.ts`.  The remote
response is passed in: `none` models a thrown error (caught and turned
into `false`), `some t` models `response.text`.  For the `All` value the source
asks a Yes/No face-presence question and accepts iff the trimmed,
lower-cased answer is `"yes"`; otherwise it compares the trimmed,
lower-cased answer with the lower-cased gender string. -/
def filterFrameByGender (response : Option String) (gender : Gender) : Bool :=
  match gender with
  | Gender.All =>
      match response with
      | none => false
      | some t => decide (toLowerString (trimString t) = "yes")
  | g =>
      match response with
      | none => false
      | some t => decide (toLowerString (trimString t) = toLowerString (genderString g))

/-- One part of a generateContent response candidate, as read by
`enhanceImage`: an optional `inlineData` with mime type and base64 data. -/
structure GenPart where
  inlineData : Option (String × String)
deriving DecidableEq, Repr

/-- Model of `enhanceImage` from `src/services/geminiService.ts`: scan the response
parts for the first one with `inlineData` and build a data URI from it;
return `none` when no part has inline data ("no image produced") or when
the call threw (`response = none`). -/
def enhanceImage (response : Option (List GenPart)) : Option String :=
  match response with
  | none => none
  | some parts =>
      parts.findSome? fun p =>
        p.inlineData.map fun md => "data:" ++ md.1 ++ ";base64," ++ md.2

/-! Sampling schedule of the current variant (`part_001`):
`frameInterval = 1 / framesPerSecond`,
`totalFramesToProcess = Math.floor(segmentDuration / frameInterval)`,
sample `i` at `startTime + i * frameInterval`. -/

/-- Source: `frameInterval = 1 / framesPerSecond` (part_001). -/
def frameInterval (fps : ℕ) : ℚ := 1 / (fps : ℚ)

/-- Source: `totalFramesToProcess = Math.floor(segmentDuration / frameInterval)` (part_001). -/
def totalFramesToProcess (startTime endTime : ℚ) (fps : ℕ) : ℕ :=
  (⌊(endTime - startTime) / frameInterval fps⌋).toNat

/-- Source: `currentTime = startTime + (i * frameInterval)` (part_001). -/
def sampleTime (startTime : ℚ) (fps : ℕ) (i : ℕ) : ℚ :=
  startTime + (i : ℚ) * frameInterval fps

/-! Sampling schedule of the older variant (`src/App.tsx`):
`totalFramesToExtract = Math.floor(segmentDuration * framesPerSecond)`,
`time = startTime + (j / totalFramesToExtract) * segmentDuration`. -/

/-- Source: `totalFramesToExtract = Math.floor(segmentDuration * framesPerSecond)` (App.tsx). -/
def totalFramesToExtract (startTime endTime : ℚ) (fps : ℕ) : ℕ :=
  (⌊(endTime - startTime) * (fps : ℚ)⌋).toNat

/-- Source: `time = startTime + (j / totalFramesToExtract) * segmentDuration` (App.tsx). -/
def appSampleTime (startTime endTime : ℚ) (fps : ℕ) (j : ℕ) : ℚ :=
  startTime + ((j : ℚ) / (totalFramesToExtract startTime endTime fps : ℚ)) * (endTime - startTime)

/-- Result of the per-sample extraction loop of the `part_001`
`handleExtractFrames`: the accepted frames in append order, whether the
loop exited through the cancellation check, and how many samples the
video sampler (seek + capture) was invoked on. -/
structure ExtractLoopOut where
  accepted : List ExtractedFrame
  cancelledObserved : Bool
  samplerCalls : ℕ
deriving DecidableEq, Repr

/-- The `for (let i = 0; i < totalFramesToProcess; i++)` loop of
the `part_001` function `handleExtractFrames`.  Per iteration: check the
cancellation flag and break if set; seek to `sampleTime i` (a seek error
is caught and the sample skipped, modelled by `seekOk i = false`);
capture the frame (`capture i`); classify it (`classify i` is the remote
response) and append it to the accepted list iff `filterFrameByGender`
answers `true`. -/
def extractLoop (classify : ℕ → Option String) (seekOk cancelled : ℕ → Bool)
    (gender : Gender) (capture : ℕ → String) (startTime : ℚ) (fps : ℕ) :
    ℕ → ℕ → ExtractLoopOut
  | _, 0 => ⟨[], false, 0⟩
  | i, n + 1 =>
    if cancelled i then ⟨[], true, 0⟩
    else
      let out := extractLoop classify seekOk cancelled gender capture startTime fps (i + 1) n
      if seekOk i then
        if filterFrameByGender (classify i) gender then
          ⟨⟨sampleTime startTime fps i, capture i⟩ :: out.accepted,
            out.cancelledObserved, out.samplerCalls + 1⟩
        else
          ⟨out.accepted, out.cancelledObserved, out.samplerCalls + 1⟩
      else
        ⟨out.accepted, out.cancelledObserved, out.samplerCalls + 1⟩

/-- Observable outcome of one run of the `part_001` function `handleExtractFrames`. -/
structure ExtractOutcome where
  status : VideoStatus
  processingState : ProcessingState
  accepted : List ExtractedFrame
  resultCount : ℕ
  samplerCalls : ℕ
  cancelledObserved : Bool
deriving DecidableEq, Repr

/-- Model of `handleExtractFrames` from `part_001`.  `metadataOk` models whether the
`loadedmetadata` wait succeeded (failure is run-fatal: status `error`);
a segment of non-positive duration short-circuits with status `done` and
no sampler invocation; `contextOk` models the 2D-canvas-context check;
otherwise the per-sample loop runs over `totalFramesToProcess` samples.
The cleanup on every exit path returns the processing state to `idle`,
and a full or cancelled loop finishes with status `queued` and
`resultCount = foundFramesCount`. -/
def handleExtractFrames (metadataOk contextOk : Bool) (startTime endTime : ℚ)
    (fps : ℕ) (gender : Gender) (classify : ℕ → Option String)
    (seekOk cancelled : ℕ → Bool) (capture : ℕ → String) : ExtractOutcome :=
  if metadataOk = false then
    ⟨VideoStatus.error, ProcessingState.idle, [], 0, 0, false⟩
  else if endTime - startTime ≤ 0 then
    ⟨VideoStatus.done, ProcessingState.idle, [], 0, 0, false⟩
  else if contextOk = false then
    ⟨VideoStatus.error, ProcessingState.idle, [], 0, 0, false⟩
  else
    let out := extractLoop classify seekOk cancelled gender capture startTime fps 0
      (totalFramesToProcess startTime endTime fps)
    ⟨VideoStatus.queued, ProcessingState.idle, out.accepted, out.accepted.length,
      out.samplerCalls, out.cancelledObserved⟩

/-- Source: `MAX_SELECTED_FRAMES = 8` (part_001). -/
def MAX_SELECTED_FRAMES : ℕ := 8

/-- Model of `handleFrameSelection` from `part_001`: toggle a timestamp in the
selection set.  Removing is unconditional; adding is allowed only below
the cap, otherwise the set is unchanged and the user is alerted (the
returned Boolean). -/
def handleFrameSelection (prev : Finset ℚ) (timestamp : ℚ) : Finset ℚ × Bool :=
  if timestamp ∈ prev then (prev.erase timestamp, false)
  else if prev.card < MAX_SELECTED_FRAMES then (insert timestamp prev, false)
  else (prev, true)

/-- The `onSelectAll` handler of `part_001`: replace the selection with
the timestamps of the first `MAX_SELECTED_FRAMES` extracted frames. -/
def onSelectAll (frames : List ExtractedFrame) : Finset ℚ :=
  ((frames.take MAX_SELECTED_FRAMES).map fun f => f.timestamp).toFinset

/-- The `onDeselectAll` handler of `part_001`: empty the selection. -/
def onDeselectAll : Finset ℚ := (∅ : Finset ℚ)

/-- Source: `framesToEnhance = extractedFrames.filter(f => selectedFrameIds.has(f.timestamp))`
(part_001 `handleEnhanceFrames`). -/
def framesToEnhance (frames : List ExtractedFrame) (sel : Finset ℚ) : List ExtractedFrame :=
  frames.filter fun f => decide (f.timestamp ∈ sel)

/-- One invocation of the remote enhancer inside the loop: the target
frame, the reference data URL passed (`referenceFrame?.dataUrl`) and the
colorize flag. -/
structure EnhanceCall where
  target : ExtractedFrame
  reference : Option String
  colorize : Bool
deriving DecidableEq, Repr

/-- Result of the per-frame enhancement loop. -/
structure EnhanceLoopOut where
  images : List EnhancedImage
  cancelledObserved : Bool
  calls : List EnhanceCall
deriving DecidableEq, Repr

/-- The images the enhancement loop accumulates when it runs without
cancellation from index `j` over `l`: one image per frame whose enhancer
call produced a URL, keeping loop order, with
`id = (frame.timestamp, j)` and `originalTimestamp = frame.timestamp`. -/
def imagesOf (enhancer : ℕ → Option (List GenPart)) : ℕ → List ExtractedFrame → List EnhancedImage
  | _, [] => []
  | j, f :: rest =>
    match enhanceImage (enhancer j) with
    | some url => ⟨f.timestamp, j, f.timestamp, url⟩ :: imagesOf enhancer (j + 1) rest
    | none => imagesOf enhancer (j + 1) rest

/-- The `for (let j = 0; j < framesToEnhance.length; j++)` loop of
the `part_001` function `handleEnhanceFrames`.  Per iteration: check the
cancellation flag and break if set; call the enhancer with the frame,
the fixed reference data URL and the colorize flag; on a produced URL
append an `EnhancedImage` with id `` `${frame.timestamp}-${j}` ``; on
`null` or a thrown error skip the frame and continue. -/
def enhanceLoop (enhancer : ℕ → Option (List GenPart)) (cancelled : ℕ → Bool)
    (refD : Option String) (colorize : Bool) : ℕ → List ExtractedFrame → EnhanceLoopOut
  | _, [] => ⟨[], false, []⟩
  | j, f :: rest =>
    if cancelled j then ⟨[], true, []⟩
    else
      let out := enhanceLoop enhancer cancelled refD colorize (j + 1) rest
      match enhanceImage (enhancer j) with
      | some url =>
          ⟨⟨f.timestamp, j, f.timestamp, url⟩ :: out.images, out.cancelledObserved,
            ⟨f, refD, colorize⟩ :: out.calls⟩
      | none =>
          ⟨out.images, out.cancelledObserved, ⟨f, refD, colorize⟩ :: out.calls⟩

/-- Observable outcome of one run of the `part_001` function `handleEnhanceFrames`. -/
structure EnhanceOutcome where
  images : List EnhancedImage
  resultCount : ℕ
  status : VideoStatus
  processingState : ProcessingState
  cancelledObserved : Bool
  calls : List EnhanceCall
  referenceFrame : Option ExtractedFrame
deriving DecidableEq, Repr

/-- Body of `handleEnhanceFrames` past the emptiness guard: pick
`referenceFrame = framesToEnhance[Math.floor(framesToEnhance.length / 2)]`
once, run the loop, finish with status `done` and processing state
`done` whether or not cancellation was observed. -/
def enhanceCore (fte : List ExtractedFrame) (colorize : Bool)
    (enhancer : ℕ → Option (List GenPart)) (cancelled : ℕ → Bool) : EnhanceOutcome :=
  let referenceFrame := fte.get? (fte.length / 2)
  let out := enhanceLoop enhancer cancelled (referenceFrame.map fun f => f.dataUrl)
    colorize 0 fte
  ⟨out.images, out.images.length, VideoStatus.done, ProcessingState.done,
    out.cancelledObserved, out.calls, referenceFrame⟩

/-- Model of `handleEnhanceFrames` from `part_001`: filter the extracted frames by
the selection, return early (no run) when nothing is selected, otherwise
run `enhanceCore`. -/
def handleEnhanceFrames (frames : List ExtractedFrame) (sel : Finset ℚ)
    (colorize : Bool) (enhancer : ℕ → Option (List GenPart))
    (cancelled : ℕ → Bool) : Option EnhanceOutcome :=
  let fte := framesToEnhance frames sel
  if fte.length = 0 then none
  else some (enhanceCore fte colorize enhancer cancelled)

/-- Decimal character codes of a natural number, most significant digit
first, as JavaScript renders the loop index `j` inside a template
literal.  (`48` is the code of the zero digit.) -/
def digitCodes (n : ℕ) : List ℕ :=
  ((Nat.digits 10 n).map fun d => 48 + d).reverse

/-- Character codes of the id string `` `${frame.timestamp}-${j}` ``:
any rendering `numStr` of the timestamp, the separator code `45`
(hyphen-minus), then the decimal digits of the loop index. -/
def renderId (numStr : ℚ → List ℕ) (img : EnhancedImage) : List ℕ :=
  numStr img.idTimestamp ++ 45 :: digitCodes img.idIndex

/-- Acceptance condition of one extraction iteration: the seek settled
and the classifier matched. -/
def acceptSample (classify : ℕ → Option String) (seekOk : ℕ → Bool)
    (gender : Gender) (i : ℕ) : Bool :=
  seekOk i && filterFrameByGender (classify i) gender

/-- The frame captured at sample `i`. -/
def mkFrame (capture : ℕ → String) (startTime : ℚ) (fps : ℕ) (i : ℕ) : ExtractedFrame :=
  ⟨sampleTime startTime fps i, capture i⟩

theorem extractLoop_no_cancel (classify : ℕ → Option String) (seekOk cancelled : ℕ → Bool)
    (gender : Gender) (capture : ℕ → String) (startTime : ℚ) (fps : ℕ) :
    ∀ n i, (∀ t ∈ List.range' i n, cancelled t = false) →
      extractLoop classify seekOk cancelled gender capture startTime fps i n =
        ⟨((List.range' i n).filter (acceptSample classify seekOk gender)).map
          (mkFrame capture startTime fps), false, n⟩ := by
  intro n
  induction n with
  | zero => intro i _; rfl
  | succ n ih =>
      intro i h
      have hi : cancelled i = false := h i (by rw [List.range'_succ]; exact List.mem_cons_self _ _)
      have ht : ∀ t ∈ List.range' (i + 1) n, cancelled t = false := fun t htm =>
        h t (by rw [List.range'_succ]; exact List.mem_cons_of_mem _ htm)
      rw [List.range'_succ]
      simp only [extractLoop, hi, Bool.false_eq_true, if_false, ih (i + 1) ht]
      cases hs : seekOk i <;>
        cases hf : filterFrameByGender (classify i) gender <;>
          simp [acceptSample, hs, hf, List.filter_cons, mkFrame]

theorem extractLoop_cancel (classify : ℕ → Option String) (seekOk cancelled : ℕ → Bool)
    (gender : Gender) (capture : ℕ → String) (startTime : ℚ) (fps : ℕ) :
    ∀ m n i, m < n → (∀ t ∈ List.range' i m, cancelled t = false) →
      cancelled (i + m) = true →
      extractLoop classify seekOk cancelled gender capture startTime fps i n =
        ⟨((List.range' i m).filter (acceptSample classify seekOk gender)).map
          (mkFrame capture startTime fps), true, m⟩ := by
  intro m
  induction m with
  | zero =>
      intro n i hmn _ hc
      obtain ⟨k, rfl⟩ : ∃ k, n = k + 1 := ⟨n - 1, by omega⟩
      have hc0 : cancelled i = true := by simpa using hc
      simp [extractLoop, hc0]
  | succ m ih =>
      intro n i hmn h hc
      obtain ⟨k, rfl⟩ : ∃ k, n = k + 1 := ⟨n - 1, by omega⟩
      have hi : cancelled i = false := h i (by rw [List.range'_succ]; exact List.mem_cons_self _ _)
      have ht : ∀ t ∈ List.range' (i + 1) m, cancelled t = false := fun t htm =>
        h t (by rw [List.range'_succ]; exact List.mem_cons_of_mem _ htm)
      have hc2 : cancelled (i + 1 + m) = true := by
        have he : i + 1 + m = i + (m + 1) := by omega
        rw [he]; exact hc
      rw [List.range'_succ]
      simp only [extractLoop, hi, Bool.false_eq_true, if_false,
        ih k (i + 1) (by omega) ht hc2]
      cases hs : seekOk i <;>
        cases hf : filterFrameByGender (classify i) gender <;>
          simp [acceptSample, hs, hf, List.filter_cons, mkFrame]

theorem enhanceLoop_no_cancel (enhancer : ℕ → Option (List GenPart))
    (cancelled : ℕ → Bool) (refD : Option String) (colorize : Bool) :
    ∀ (l : List ExtractedFrame) (j : ℕ), (∀ k < l.length, cancelled (j + k) = false) →
      enhanceLoop enhancer cancelled refD colorize j l =
        ⟨imagesOf enhancer j l, false, l.map fun f => ⟨f, refD, colorize⟩⟩ := by
  intro l
  induction l with
  | nil => intro j _; rfl
  | cons f rest ih =>
      intro j h
      have hj : cancelled j = false := by simpa using h 0 (by simp)
      have ht : ∀ k < rest.length, cancelled (j + 1 + k) = false := by
        intro k hk
        have he : j + 1 + k = j + (k + 1) := by omega
        rw [he]
        exact h (k + 1) (by simpa using Nat.succ_lt_succ hk)
      simp only [enhanceLoop, hj, Bool.false_eq_true, if_false, ih (j + 1) ht,
        imagesOf, List.map_cons]
      cases he : enhanceImage (enhancer j) <;> simp [he]

theorem enhanceLoop_cancel (enhancer : ℕ → Option (List GenPart))
    (cancelled : ℕ → Bool) (refD : Option String) (colorize : Bool) :
    ∀ (m : ℕ) (l : List ExtractedFrame) (j : ℕ), m < l.length →
      (∀ k < m, cancelled (j + k) = false) → cancelled (j + m) = true →
      enhanceLoop enhancer cancelled refD colorize j l =
        ⟨imagesOf enhancer j (l.take m), true, (l.take m).map fun f => ⟨f, refD, colorize⟩⟩ := by
  intro m
  induction m with
  | zero =>
      intro l j hml _ hc
      obtain ⟨f, rest, rfl⟩ : ∃ f rest, l = f :: rest := by
        cases l with
        | nil => simp at hml
        | cons f rest => exact ⟨f, rest, rfl⟩
      have hc0 : cancelled j = true := by simpa using hc
      simp [enhanceLoop, hc0, imagesOf]
  | succ m ih =>
      intro l j hml h hc
      obtain ⟨f, rest, rfl⟩ : ∃ f rest, l = f :: rest := by
        cases l with
        | nil => simp at hml
        | cons f rest => exact ⟨f, rest, rfl⟩
      have hj : cancelled j = false := by simpa using h 0 (by omega)
      have ht : ∀ k < m, cancelled (j + 1 + k) = false := by
        intro k hk
        have he : j + 1 + k = j + (k + 1) := by omega
        rw [he]
        exact h (k + 1) (by omega)
      have hc2 : cancelled (j + 1 + m) = true := by
        have he : j + 1 + m = j + (m + 1) := by omega
        rw [he]; exact hc
      have hml2 : m < rest.length := by simpa using hml
      simp only [enhanceLoop, hj, Bool.false_eq_true, if_false,
        ih rest (j + 1) hml2 ht hc2, List.take_succ_cons, imagesOf, List.map_cons]
      cases he : enhanceImage (enhancer j) <;> simp [he]

theorem enhanceLoop_calls_reference (enhancer : ℕ → Option (List GenPart))
    (cancelled : ℕ → Bool) (refD : Option String) (colorize : Bool) :
    ∀ (l : List ExtractedFrame) (j : ℕ) (c : EnhanceCall),
      c ∈ (enhanceLoop enhancer cancelled refD colorize j l).calls →
      c.reference = refD ∧ c.colorize = colorize := by
  intro l
  induction l with
  | nil => intro j c hc; simp [enhanceLoop] at hc
  | cons f rest ih =>
      intro j c hc
      by_cases hj : cancelled j = true
      · simp [enhanceLoop, hj] at hc
      · cases he : enhanceImage (enhancer j)
        · simp only [enhanceLoop, hj, if_false, he] at hc
          cases hc with
          | head => exact ⟨rfl, rfl⟩
          | tail _ h2 => exact ih (j + 1) c h2
        · simp only [enhanceLoop, hj, if_false, he] at hc
          cases hc with
          | head => exact ⟨rfl, rfl⟩
          | tail _ h2 => exact ih (j + 1) c h2

theorem enhanceLoop_idIndex (enhancer : ℕ → Option (List GenPart))
    (cancelled : ℕ → Bool) (refD : Option String) (colorize : Bool) :
    ∀ (l : List ExtractedFrame) (j : ℕ),
      ((enhanceLoop enhancer cancelled refD colorize j l).images.Pairwise
        fun a b => a.idIndex < b.idIndex) ∧
      ∀ a ∈ (enhanceLoop enhancer cancelled refD colorize j l).images, j ≤ a.idIndex := by
  intro l
  induction l with
  | nil => intro j; simp [enhanceLoop]
  | cons f rest ih =>
      intro j
      by_cases hj : cancelled j = true
      · simp [enhanceLoop, hj]
      · obtain ⟨ihp, ihb⟩ := ih (j + 1)
        simp only [enhanceLoop, hj, if_false]
        cases he : enhanceImage (enhancer j) <;> simp only
        · exact ⟨ihp, fun a ha => le_trans (Nat.le_succ j) (ihb a ha)⟩
        · refine ⟨List.Pairwise.cons ?_ ihp, ?_⟩
          · intro b hb
            exact lt_of_lt_of_le (Nat.lt_succ_self j) (ihb b hb)
          · intro a ha
            rcases List.mem_cons.mp ha with rfl | ha
            · exact le_refl _
            · exact le_trans (Nat.le_succ j) (ihb a ha)

theorem imagesOf_timestamps_sublist (enhancer : ℕ → Option (List GenPart)) :
    ∀ (l : List ExtractedFrame) (j : ℕ),
      ((imagesOf enhancer j l).map fun a => a.originalTimestamp).Sublist
        (l.map fun f => f.timestamp) := by
  intro l
  induction l with
  | nil => intro j; simp [imagesOf]
  | cons f rest ih =>
      intro j
      simp only [imagesOf, List.map_cons]
      cases he : enhanceImage (enhancer j)
      · exact List.Sublist.cons _ (ih (j + 1))
      · exact List.Sublist.cons₂ _ (ih (j + 1))

theorem takeWhile_all_append (p : ℕ → Bool) :
    ∀ (l1 : List ℕ) (c : ℕ) (l2 : List ℕ), (∀ x ∈ l1, p x = true) → p c = false →
      List.takeWhile p (l1 ++ c :: l2) = l1 := by
  intro l1
  induction l1 with
  | nil => intro c l2 _ hpc; simp [List.takeWhile_cons, hpc]
  | cons a l ih =>
      intro c l2 h hpc
      have ha : p a = true := h a (List.mem_cons_self _ _)
      simp [List.takeWhile_cons, ha,
        ih c l2 (fun x hx => h x (List.mem_cons_of_mem _ hx)) hpc]

theorem digitCodes_large (n : ℕ) : ∀ x ∈ digitCodes n, 48 ≤ x := by
  intro x hx
  simp only [digitCodes, List.mem_reverse, List.mem_map] at hx
  obtain ⟨d, _, rfl⟩ := hx
  omega

theorem digitCodes_injective : Function.Injective digitCodes := by
  intro a b hab
  have hmap : (Nat.digits 10 a).map (fun d => 48 + d) =
      (Nat.digits 10 b).map (fun d => 48 + d) := by
    have h1 := congrArg List.reverse hab
    simpa [digitCodes] using h1
  have hdig : Nat.digits 10 a = Nat.digits 10 b := by
    have hinj : Function.Injective fun d : ℕ => 48 + d := fun x y hxy => by
      simpa using hxy
    exact List.map_injective_iff.mpr hinj hmap
  calc a = Nat.ofDigits 10 (Nat.digits 10 a) := (Nat.ofDigits_digits 10 a).symm
    _ = Nat.ofDigits 10 (Nat.digits 10 b) := by rw [hdig]
    _ = b := Nat.ofDigits_digits 10 b

theorem renderId_eq_imp_idIndex_eq (numStr : ℚ → List ℕ) (a b : EnhancedImage)
    (h : renderId numStr a = renderId numStr b) : a.idIndex = b.idIndex := by
  have key : ∀ img : EnhancedImage,
      ((renderId numStr img).reverse.takeWhile fun x => decide (46 ≤ x)).reverse =
        (digitCodes img.idIndex).reverse.reverse := by
    intro img
    have hrev : (renderId numStr img).reverse =
        (digitCodes img.idIndex).reverse ++ 45 :: (numStr img.idTimestamp).reverse := by
      simp [renderId, List.reverse_append]
    rw [hrev, takeWhile_all_append]
    · intro x hx
      have : 48 ≤ x := digitCodes_large img.idIndex x (List.mem_reverse.mp hx)
      simpa using by omega
    · simp
  have h2 := congrArg
    (fun l : List ℕ => (l.reverse.takeWhile fun x => decide (46 ≤ x)).reverse) h
  simp only at h2
  rw [key a, key b, List.reverse_reverse, List.reverse_reverse] at h2
  exact digitCodes_injective h2

theorem imagesOf_nil_of_none (enhancer : ℕ → Option (List GenPart))
    (hnone : ∀ j, enhanceImage (enhancer j) = none) :
    ∀ (l : List ExtractedFrame) (j : ℕ), imagesOf enhancer j l = [] := by
  intro l
  induction l with
  | nil => intro j; rfl
  | cons f rest ih => intro j; simp [imagesOf, hnone j, ih (j + 1)]

theorem handleEnhanceFrames_eq_some (frames : List ExtractedFrame) (sel : Finset ℚ)
    (colorize : Bool) (enhancer : ℕ → Option (List GenPart)) (cancelled : ℕ → Bool)
    (o : EnhanceOutcome)
    (ho : handleEnhanceFrames frames sel colorize enhancer cancelled = some o) :
    (framesToEnhance frames sel).length ≠ 0 ∧
      o = enhanceCore (framesToEnhance frames sel) colorize enhancer cancelled := by
  by_cases h0 : (framesToEnhance frames sel).length = 0
  · rw [handleEnhanceFrames] at ho
    simp only [h0, if_true] at ho
    cases ho
  · rw [handleEnhanceFrames] at ho
    simp only [h0, if_false] at ho
    exact ⟨h0, (Option.some.inj ho).symm⟩

/-- C8: for every segment with `endTime ≤ startTime` (non-positive
duration), extraction completes immediately with zero accepted frames,
never invokes the sampler, and reports status `done` (a zero-result
completion, not the error status). -/
theorem c8_invalid_segment (startTime endTime : ℚ) (fps : ℕ) (gender : Gender)
    (classify : ℕ → Option String) (seekOk cancelled : ℕ → Bool)
    (capture : ℕ → String) (h : endTime ≤ startTime) :
    handleExtractFrames true true startTime endTime fps gender classify seekOk
        cancelled capture =
      ⟨VideoStatus.done, ProcessingState.idle, [], 0, 0, false⟩ ∧
    (handleExtractFrames true true startTime endTime fps gender classify seekOk
        cancelled capture).status ≠ VideoStatus.error := by
  have hseg : endTime - startTime ≤ 0 := by linarith
  have hrun : handleExtractFrames true true startTime endTime fps gender classify
      seekOk cancelled capture =
      ⟨VideoStatus.done, ProcessingState.idle, [], 0, 0, false⟩ := by
    rw [handleExtractFrames, if_neg (by simp), if_pos hseg]
  exact ⟨hrun, by rw [hrun]; simp⟩

theorem c8_invalid_segment_witness :
    handleExtractFrames true true 1 0 4 Gender.All (fun _ => some "Yes")
        (fun _ => true) (fun _ => false) (fun _ => "") =
      ⟨VideoStatus.done, ProcessingState.idle, [], 0, 0, false⟩ ∧
    (handleExtractFrames true true 1 0 4 Gender.All (fun _ => some "Yes")
        (fun _ => true) (fun _ => false) (fun _ => "")).status ≠ VideoStatus.error :=
  c8_invalid_segment 1 0 4 Gender.All (fun _ => some "Yes") (fun _ => true)
    (fun _ => false) (fun _ => "") (by norm_num)

/-- C4: every selection operation preserves the cap
`|Selection| ≤ MAX_SELECTED_FRAMES`; toggling an absent timestamp when
the selection already holds the maximum leaves the set unchanged and
raises the alert; removing a present timestamp is always allowed. -/
theorem c4_selection_cap (s : Finset ℚ) (t : ℚ) (frames : List ExtractedFrame)
    (hcard : s.card ≤ MAX_SELECTED_FRAMES) :
    (handleFrameSelection s t).1.card ≤ MAX_SELECTED_FRAMES ∧
    (onSelectAll frames).card ≤ MAX_SELECTED_FRAMES ∧
    onDeselectAll.card ≤ MAX_SELECTED_FRAMES ∧
    (t ∉ s → s.card = MAX_SELECTED_FRAMES → handleFrameSelection s t = (s, true)) ∧
    (t ∈ s → handleFrameSelection s t = (s.erase t, false)) := by
  refine ⟨?_, ?_, ?_, ?_, ?_⟩
  · unfold handleFrameSelection
    split_ifs with h1 h2
    · exact le_trans (Finset.card_erase_le) hcard
    · show (insert t s).card ≤ MAX_SELECTED_FRAMES
      rw [Finset.card_insert_of_not_mem h1]
      omega
    · exact hcard
  · refine le_trans (List.toFinset_card_le _) ?_
    rw [List.length_map, List.length_take]
    exact inf_le_left
  · simp [onDeselectAll]
  · intro hts hc
    unfold handleFrameSelection
    rw [if_neg hts, if_neg (by rw [hc]; exact lt_irrefl _)]
  · intro hts
    unfold handleFrameSelection
    rw [if_pos hts]

theorem c4_selection_cap_witness :
    (handleFrameSelection {0, 1, 2, 3, 4, 5, 6, 7} 9).1.card ≤ MAX_SELECTED_FRAMES ∧
    (onSelectAll []).card ≤ MAX_SELECTED_FRAMES ∧
    onDeselectAll.card ≤ MAX_SELECTED_FRAMES ∧
    ((9 : ℚ) ∉ ({0, 1, 2, 3, 4, 5, 6, 7} : Finset ℚ) →
      ({0, 1, 2, 3, 4, 5, 6, 7} : Finset ℚ).card = MAX_SELECTED_FRAMES →
      handleFrameSelection {0, 1, 2, 3, 4, 5, 6, 7} 9 = ({0, 1, 2, 3, 4, 5, 6, 7}, true)) ∧
    ((9 : ℚ) ∈ ({0, 1, 2, 3, 4, 5, 6, 7} : Finset ℚ) →
      handleFrameSelection {0, 1, 2, 3, 4, 5, 6, 7} 9 =
        (({0, 1, 2, 3, 4, 5, 6, 7} : Finset ℚ).erase 9, false)) :=
  c4_selection_cap {0, 1, 2, 3, 4, 5, 6, 7} 9 [] (by decide)

/-- C5: for every enhancement run over a non-empty selection of `n`
frames, the identity reference frame is the element at index
`n / 2` (floored) of the stored order, chosen once before the loop, and
every enhancer call of the run is passed exactly the data URL of that frame. -/
theorem c5_reference_frame (frames : List ExtractedFrame) (sel : Finset ℚ)
    (colorize : Bool) (enhancer : ℕ → Option (List GenPart)) (cancelled : ℕ → Bool)
    (o : EnhanceOutcome)
    (ho : handleEnhanceFrames frames sel colorize enhancer cancelled = some o) :
    0 < (framesToEnhance frames sel).length ∧
    (∃ hlt : (framesToEnhance frames sel).length / 2 < (framesToEnhance frames sel).length,
      o.referenceFrame = some ((framesToEnhance frames sel).get
        ⟨(framesToEnhance frames sel).length / 2, hlt⟩)) ∧
    (∀ c ∈ o.calls, c.reference =
      ((framesToEnhance frames sel).get? ((framesToEnhance frames sel).length / 2)).map
        fun f => f.dataUrl) := by
  obtain ⟨h0, rfl⟩ := handleEnhanceFrames_eq_some frames sel colorize enhancer cancelled o ho
  have hpos : 0 < (framesToEnhance frames sel).length := Nat.pos_of_ne_zero h0
  have hlt : (framesToEnhance frames sel).length / 2 < (framesToEnhance frames sel).length :=
    Nat.div_lt_self hpos one_lt_two
  refine ⟨hpos, ⟨hlt, ?_⟩, ?_⟩
  · show (framesToEnhance frames sel).get? ((framesToEnhance frames sel).length / 2) = _
    exact List.get?_eq_get hlt
  · intro c hc
    exact (enhanceLoop_calls_reference enhancer cancelled _ colorize
      (framesToEnhance frames sel) 0 c hc).1

theorem c5_reference_frame_witness :
    0 < (framesToEnhance [⟨0, "a"⟩, ⟨1, "b"⟩, ⟨2, "c"⟩] {0, 1, 2}).length ∧
    (∃ hlt : (framesToEnhance [⟨0, "a"⟩, ⟨1, "b"⟩, ⟨2, "c"⟩] {0, 1, 2}).length / 2 <
        (framesToEnhance [⟨0, "a"⟩, ⟨1, "b"⟩, ⟨2, "c"⟩] {0, 1, 2}).length,
      (enhanceCore (framesToEnhance [⟨0, "a"⟩, ⟨1, "b"⟩, ⟨2, "c"⟩] {0, 1, 2}) true
          (fun _ => some [⟨some ("image/png", "zzz")⟩]) (fun _ => false)).referenceFrame =
        some ((framesToEnhance [⟨0, "a"⟩, ⟨1, "b"⟩, ⟨2, "c"⟩] {0, 1, 2}).get
          ⟨(framesToEnhance [⟨0, "a"⟩, ⟨1, "b"⟩, ⟨2, "c"⟩] {0, 1, 2}).length / 2, hlt⟩)) ∧
    (∀ c ∈ (enhanceCore (framesToEnhance [⟨0, "a"⟩, ⟨1, "b"⟩, ⟨2, "c"⟩] {0, 1, 2}) true
        (fun _ => some [⟨some ("image/png", "zzz")⟩]) (fun _ => false)).calls,
      c.reference = ((framesToEnhance [⟨0, "a"⟩, ⟨1, "b"⟩, ⟨2, "c"⟩] {0, 1, 2}).get?
        ((framesToEnhance [⟨0, "a"⟩, ⟨1, "b"⟩, ⟨2, "c"⟩] {0, 1, 2}).length / 2)).map
        fun f => f.dataUrl) :=
  c5_reference_frame [⟨0, "a"⟩, ⟨1, "b"⟩, ⟨2, "c"⟩] {0, 1, 2} true
    (fun _ => some [⟨some ("image/png", "zzz")⟩]) (fun _ => false) _ rfl

theorem handleExtractFrames_run (startTime endTime : ℚ) (fps : ℕ) (gender : Gender)
    (classify : ℕ → Option String) (seekOk : ℕ → Bool) (capture : ℕ → String)
    (hseg : 0 < endTime - startTime) :
    handleExtractFrames true true startTime endTime fps gender classify seekOk
        (fun _ => false) capture =
      ⟨VideoStatus.queued, ProcessingState.idle,
        ((List.range (totalFramesToProcess startTime endTime fps)).filter
          (acceptSample classify seekOk gender)).map (mkFrame capture startTime fps),
        (((List.range (totalFramesToProcess startTime endTime fps)).filter
          (acceptSample classify seekOk gender)).map (mkFrame capture startTime fps)).length,
        totalFramesToProcess startTime endTime fps, false⟩ := by
  rw [handleExtractFrames, if_neg (by simp), if_neg (not_le.mpr hseg), if_neg (by simp)]
  rw [List.range_eq_range']
  rw [extractLoop_no_cancel classify seekOk (fun _ => false) gender capture startTime fps
    (totalFramesToProcess startTime endTime fps) 0 (fun t _ => rfl)]

/-- C6: a classifier failure is a per-frame non-match — `none` (a thrown
remote error) never matches any filter value — and the loop is never
aborted by classifier outcomes: the sampler still visits every sample
and the run finishes with status `queued`.  When the classifier fails or
returns a non-matching label on every sample, the accepted list is empty
and the result count zero, with the run still completing normally. -/
theorem c6_classifier_failure (startTime endTime : ℚ) (fps : ℕ) (gender : Gender)
    (classify : ℕ → Option String) (seekOk : ℕ → Bool) (capture : ℕ → String)
    (hseg : 0 < endTime - startTime)
    (hfail : ∀ i, filterFrameByGender (classify i) gender = false) :
    (∀ g : Gender, filterFrameByGender none g = false) ∧
    (∀ classify2 : ℕ → Option String,
      (handleExtractFrames true true startTime endTime fps gender classify2 seekOk
        (fun _ => false) capture).samplerCalls =
          totalFramesToProcess startTime endTime fps ∧
      (handleExtractFrames true true startTime endTime fps gender classify2 seekOk
        (fun _ => false) capture).status = VideoStatus.queued) ∧
    (handleExtractFrames true true startTime endTime fps gender classify seekOk
      (fun _ => false) capture).accepted = [] ∧
    (handleExtractFrames true true startTime endTime fps gender classify seekOk
      (fun _ => false) capture).resultCount = 0 := by
  have hnil : ((List.range (totalFramesToProcess startTime endTime fps)).filter
      (acceptSample classify seekOk gender)) = [] := by
    rw [List.filter_eq_nil_iff]
    intro a _
    simp [acceptSample, hfail a]
  refine ⟨?_, ?_, ?_, ?_⟩
  · intro g; cases g <;> rfl
  · intro classify2
    rw [handleExtractFrames_run startTime endTime fps gender classify2 seekOk capture hseg]
    exact ⟨rfl, rfl⟩
  · rw [handleExtractFrames_run startTime endTime fps gender classify seekOk capture hseg]
    show ((List.range (totalFramesToProcess startTime endTime fps)).filter
      (acceptSample classify seekOk gender)).map (mkFrame capture startTime fps) = []
    rw [hnil]
    rfl
  · rw [handleExtractFrames_run startTime endTime fps gender classify seekOk capture hseg]
    show (((List.range (totalFramesToProcess startTime endTime fps)).filter
      (acceptSample classify seekOk gender)).map (mkFrame capture startTime fps)).length = 0
    rw [hnil]
    rfl

theorem c6_classifier_failure_witness :
    (∀ g : Gender, filterFrameByGender none g = false) ∧
    (∀ classify2 : ℕ → Option String,
      (handleExtractFrames true true 0 1 4 Gender.Female classify2 (fun _ => true)
        (fun _ => false) (fun _ => "")).samplerCalls = totalFramesToProcess 0 1 4 ∧
      (handleExtractFrames true true 0 1 4 Gender.Female classify2 (fun _ => true)
        (fun _ => false) (fun _ => "")).status = VideoStatus.queued) ∧
    (handleExtractFrames true true 0 1 4 Gender.Female (fun _ => none) (fun _ => true)
      (fun _ => false) (fun _ => "")).accepted = [] ∧
    (handleExtractFrames true true 0 1 4 Gender.Female (fun _ => none) (fun _ => true)
      (fun _ => false) (fun _ => "")).resultCount = 0 :=
  c6_classifier_failure 0 1 4 Gender.Female (fun _ => none) (fun _ => true)
    (fun _ => "") (by norm_num) (fun _ => rfl)

/-- C7: when the enhancer produces no image — a response with no inline
data part, or a thrown error (`none`) — the frame is skipped: nothing is
appended, the loop continues over all selected frames; when that happens
on every call, the run ends with no enhanced images, result count zero,
and still reaches the terminal `done` state. -/
theorem c7_enhancer_no_image (frames : List ExtractedFrame) (sel : Finset ℚ)
    (colorize : Bool) (enhancer : ℕ → Option (List GenPart)) (o : EnhanceOutcome)
    (ho : handleEnhanceFrames frames sel colorize enhancer (fun _ => false) = some o)
    (hnone : ∀ j, enhanceImage (enhancer j) = none) :
    enhanceImage none = none ∧
    (∀ parts : List GenPart, (∀ p ∈ parts, p.inlineData = none) →
      enhanceImage (some parts) = none) ∧
    o.images = [] ∧ o.resultCount = 0 ∧
    o.processingState = ProcessingState.done ∧ o.status = VideoStatus.done ∧
    o.calls.length = (framesToEnhance frames sel).length := by
  obtain ⟨h0, rfl⟩ :=
    handleEnhanceFrames_eq_some frames sel colorize enhancer (fun _ => false) o ho
  have hloop := enhanceLoop_no_cancel enhancer (fun _ => false)
    (((framesToEnhance frames sel).get? ((framesToEnhance frames sel).length / 2)).map
      fun f => f.dataUrl) colorize (framesToEnhance frames sel) 0 (fun _ _ => rfl)
  have hempty := imagesOf_nil_of_none enhancer hnone (framesToEnhance frames sel) 0
  refine ⟨rfl, ?_, ?_, ?_, rfl, rfl, ?_⟩
  · intro parts hparts
    rw [enhanceImage]
    rw [List.findSome?_eq_none_iff]
    intro p hp
    rw [hparts p hp]
    rfl
  · show (enhanceLoop enhancer (fun _ => false) _ colorize 0
      (framesToEnhance frames sel)).images = []
    rw [hloop, hempty]
  · show (enhanceLoop enhancer (fun _ => false) _ colorize 0
      (framesToEnhance frames sel)).images.length = 0
    rw [hloop]
    simp only
    rw [hempty]
    rfl
  · show (enhanceLoop enhancer (fun _ => false) _ colorize 0
      (framesToEnhance frames sel)).calls.length = _
    rw [hloop]
    simp only
    rw [List.length_map]

theorem c7_enhancer_no_image_witness :
    enhanceImage none = none ∧
    (∀ parts : List GenPart, (∀ p ∈ parts, p.inlineData = none) →
      enhanceImage (some parts) = none) ∧
    (enhanceCore (framesToEnhance [⟨0, "a"⟩, ⟨1, "b"⟩] {0, 1}) true
      (fun _ => some [⟨none⟩]) (fun _ => false)).images = [] ∧
    (enhanceCore (framesToEnhance [⟨0, "a"⟩, ⟨1, "b"⟩] {0, 1}) true
      (fun _ => some [⟨none⟩]) (fun _ => false)).resultCount = 0 ∧
    (enhanceCore (framesToEnhance [⟨0, "a"⟩, ⟨1, "b"⟩] {0, 1}) true
      (fun _ => some [⟨none⟩]) (fun _ => false)).processingState = ProcessingState.done ∧
    (enhanceCore (framesToEnhance [⟨0, "a"⟩, ⟨1, "b"⟩] {0, 1}) true
      (fun _ => some [⟨none⟩]) (fun _ => false)).status = VideoStatus.done ∧
    (enhanceCore (framesToEnhance [⟨0, "a"⟩, ⟨1, "b"⟩] {0, 1}) true
      (fun _ => some [⟨none⟩]) (fun _ => false)).calls.length =
      (framesToEnhance [⟨0, "a"⟩, ⟨1, "b"⟩] {0, 1}).length :=
  c7_enhancer_no_image [⟨0, "a"⟩, ⟨1, "b"⟩] {0, 1} true (fun _ => some [⟨none⟩]) _
    rfl (fun _ => rfl)

/-- C2: cancellation is cooperative in both pipelines.  With a flag that
is first observed set at iteration `mE` of the extraction loop (resp.
`mH` of the enhancement loop), every earlier iteration completes and its
result is applied, no later iteration runs, the accepted frames (resp.
images and calls) are exactly those of the iterations before the flag
was observed, and both runs end in their normal terminal states, not an
error. -/
theorem c2_cooperative_cancellation (startTime endTime : ℚ) (fps : ℕ) (gender : Gender)
    (classify : ℕ → Option String) (seekOk cancelE : ℕ → Bool) (capture : ℕ → String)
    (mE : ℕ) (hmE : cancelE mE = true) (hminE : ∀ j < mE, cancelE j = false)
    (hEr : mE < totalFramesToProcess startTime endTime fps)
    (hseg : 0 < endTime - startTime)
    (fte : List ExtractedFrame) (colorize : Bool)
    (enhancer : ℕ → Option (List GenPart)) (cancelH : ℕ → Bool)
    (mH : ℕ) (hmH : cancelH mH = true) (hminH : ∀ j < mH, cancelH j = false)
    (hHr : mH < fte.length) :
    ((handleExtractFrames true true startTime endTime fps gender classify seekOk
        cancelE capture).accepted =
      ((List.range mE).filter (acceptSample classify seekOk gender)).map
        (mkFrame capture startTime fps) ∧
     (handleExtractFrames true true startTime endTime fps gender classify seekOk
        cancelE capture).status = VideoStatus.queued ∧
     (handleExtractFrames true true startTime endTime fps gender classify seekOk
        cancelE capture).samplerCalls = mE ∧
     (handleExtractFrames true true startTime endTime fps gender classify seekOk
        cancelE capture).cancelledObserved = true) ∧
    ((enhanceCore fte colorize enhancer cancelH).images =
        imagesOf enhancer 0 (fte.take mH) ∧
     (enhanceCore fte colorize enhancer cancelH).calls =
        (fte.take mH).map (fun f =>
          ⟨f, (fte.get? (fte.length / 2)).map (fun x => x.dataUrl), colorize⟩) ∧
     (enhanceCore fte colorize enhancer cancelH).status = VideoStatus.done ∧
     (enhanceCore fte colorize enhancer cancelH).processingState = ProcessingState.done ∧
     (enhanceCore fte colorize enhancer cancelH).cancelledObserved = true) := by
  have hloopE := extractLoop_cancel classify seekOk cancelE gender capture startTime fps
    mE (totalFramesToProcess startTime endTime fps) 0 hEr
    (fun t ht => hminE t (by
      rw [← List.range_eq_range'] at ht
      exact List.mem_range.mp ht))
    (by simpa using hmE)
  have hrunE : handleExtractFrames true true startTime endTime fps gender classify seekOk
      cancelE capture =
      ⟨VideoStatus.queued, ProcessingState.idle,
        ((List.range mE).filter (acceptSample classify seekOk gender)).map
          (mkFrame capture startTime fps),
        (((List.range mE).filter (acceptSample classify seekOk gender)).map
          (mkFrame capture startTime fps)).length, mE, true⟩ := by
    rw [handleExtractFrames, if_neg (by simp), if_neg (not_le.mpr hseg), if_neg (by simp)]
    rw [List.range_eq_range']
    rw [hloopE]
  have hloopH := enhanceLoop_cancel enhancer cancelH
    ((fte.get? (fte.length / 2)).map fun f => f.dataUrl) colorize mH fte 0 hHr
    (fun k hk => by simpa using hminH k hk) (by simpa using hmH)
  refine ⟨⟨?_, ?_, ?_, ?_⟩, ⟨?_, ?_, rfl, rfl, ?_⟩⟩
  · rw [hrunE]
  · rw [hrunE]
  · rw [hrunE]
  · rw [hrunE]
  · show (enhanceLoop enhancer cancelH _ colorize 0 fte).images = _
    rw [hloopH]
  · show (enhanceLoop enhancer cancelH _ colorize 0 fte).calls = _
    rw [hloopH]
  · show (enhanceLoop enhancer cancelH _ colorize 0 fte).cancelledObserved = true
    rw [hloopH]

theorem c2_cooperative_cancellation_witness :
    ((handleExtractFrames true true 0 1 4 Gender.All (fun _ => some "Yes")
        (fun _ => true) (fun j => decide (2 ≤ j)) (fun _ => "")).accepted =
      ((List.range 2).filter (acceptSample (fun _ => some "Yes") (fun _ => true)
        Gender.All)).map (mkFrame (fun _ => "") 0 4) ∧
     (handleExtractFrames true true 0 1 4 Gender.All (fun _ => some "Yes")
        (fun _ => true) (fun j => decide (2 ≤ j)) (fun _ => "")).status =
       VideoStatus.queued ∧
     (handleExtractFrames true true 0 1 4 Gender.All (fun _ => some "Yes")
        (fun _ => true) (fun j => decide (2 ≤ j)) (fun _ => "")).samplerCalls = 2 ∧
     (handleExtractFrames true true 0 1 4 Gender.All (fun _ => some "Yes")
        (fun _ => true) (fun j => decide (2 ≤ j)) (fun _ => "")).cancelledObserved =
       true) ∧
    ((enhanceCore [⟨0, "a"⟩, ⟨1, "b"⟩, ⟨2, "c"⟩] true
        (fun _ => some [⟨some ("image/png", "zzz")⟩]) (fun j => decide (1 ≤ j))).images =
      imagesOf (fun _ => some [⟨some ("image/png", "zzz")⟩]) 0
        ([⟨0, "a"⟩, ⟨1, "b"⟩, ⟨2, "c"⟩].take 1) ∧
     (enhanceCore [⟨0, "a"⟩, ⟨1, "b"⟩, ⟨2, "c"⟩] true
        (fun _ => some [⟨some ("image/png", "zzz")⟩]) (fun j => decide (1 ≤ j))).calls =
      (([⟨0, "a"⟩, ⟨1, "b"⟩, ⟨2, "c"⟩] : List ExtractedFrame).take 1).map (fun f =>
        ⟨f, (([⟨0, "a"⟩, ⟨1, "b"⟩, ⟨2, "c"⟩] : List ExtractedFrame).get?
          (([⟨0, "a"⟩, ⟨1, "b"⟩, ⟨2, "c"⟩] : List ExtractedFrame).length / 2)).map
          (fun x => x.dataUrl), true⟩) ∧
     (enhanceCore [⟨0, "a"⟩, ⟨1, "b"⟩, ⟨2, "c"⟩] true
        (fun _ => some [⟨some ("image/png", "zzz")⟩])
        (fun j => decide (1 ≤ j))).status = VideoStatus.done ∧
     (enhanceCore [⟨0, "a"⟩, ⟨1, "b"⟩, ⟨2, "c"⟩] true
        (fun _ => some [⟨some ("image/png", "zzz")⟩])
        (fun j => decide (1 ≤ j))).processingState = ProcessingState.done ∧
     (enhanceCore [⟨0, "a"⟩, ⟨1, "b"⟩, ⟨2, "c"⟩] true
        (fun _ => some [⟨some ("image/png", "zzz")⟩])
        (fun j => decide (1 ≤ j))).cancelledObserved = true) :=
  c2_cooperative_cancellation 0 1 4 Gender.All (fun _ => some "Yes") (fun _ => true)
    (fun j => decide (2 ≤ j)) (fun _ => "") 2 (by decide)
    (by decide) (by norm_num [totalFramesToProcess, frameInterval]) (by norm_num)
    [⟨0, "a"⟩, ⟨1, "b"⟩, ⟨2, "c"⟩] true (fun _ => some [⟨some ("image/png", "zzz")⟩])
    (fun j => decide (1 ≤ j)) 1 (by decide) (by decide) (by decide)

/-- C3: with the filter value `All` (accept-all-with-a-face), the
classifier is asked the face-presence question and a frame is accepted
iff the (trimmed, lower-cased) answer is exactly `"yes"`: the acceptance
test is equivalent to that answer, and a full uncancelled run accepts
precisely the captured samples whose classifier response passes it. -/
theorem c3_all_filter_face_presence (startTime endTime : ℚ) (fps : ℕ)
    (classify : ℕ → Option String) (seekOk : ℕ → Bool) (capture : ℕ → String)
    (hseg : 0 < endTime - startTime) :
    (∀ r : Option String, filterFrameByGender r Gender.All = true ↔
      ∃ t, r = some t ∧ toLowerString (trimString t) = "yes") ∧
    (handleExtractFrames true true startTime endTime fps Gender.All classify seekOk
      (fun _ => false) capture).accepted =
      ((List.range (totalFramesToProcess startTime endTime fps)).filter
        (fun i => seekOk i && filterFrameByGender (classify i) Gender.All)).map
        (mkFrame capture startTime fps) := by
  constructor
  · intro r
    cases r with
    | none => simp [filterFrameByGender]
    | some t => simp [filterFrameByGender]
  · rw [handleExtractFrames_run startTime endTime fps Gender.All classify seekOk
      capture hseg]
    rfl

theorem c3_all_filter_face_presence_witness :
    (∀ r : Option String, filterFrameByGender r Gender.All = true ↔
      ∃ t, r = some t ∧ toLowerString (trimString t) = "yes") ∧
    (handleExtractFrames true true 0 1 2 Gender.All
      (fun i => if i = 0 then some " Yes " else some "No") (fun _ => true)
      (fun _ => false) (fun _ => "")).accepted =
      ((List.range (totalFramesToProcess 0 1 2)).filter
        (fun i => (fun _ => true) i && filterFrameByGender
          ((fun i => if i = 0 then some " Yes " else some "No") i) Gender.All)).map
        (mkFrame (fun _ => "") 0 2) :=
  c3_all_filter_face_presence 0 1 2
    (fun i => if i = 0 then some " Yes " else some "No") (fun _ => true)
    (fun _ => "") (by norm_num)

/-- C9: within any single enhancement run the id strings of the produced
images — the timestamp rendering, a hyphen, then the loop index — are
pairwise distinct, whatever the timestamp rendering is (in particular
also when two selected frames share a timestamp), because the loop index
after the final hyphen differs. -/
theorem c9_ids_pairwise_distinct (numStr : ℚ → List ℕ) (fte : List ExtractedFrame)
    (colorize : Bool) (enhancer : ℕ → Option (List GenPart)) (cancelled : ℕ → Bool) :
    ((enhanceCore fte colorize enhancer cancelled).images).Pairwise
      fun a b => renderId numStr a ≠ renderId numStr b := by
  have hpair := (enhanceLoop_idIndex enhancer cancelled
    ((fte.get? (fte.length / 2)).map fun f => f.dataUrl) colorize fte 0).1
  have himg : (enhanceCore fte colorize enhancer cancelled).images =
      (enhanceLoop enhancer cancelled ((fte.get? (fte.length / 2)).map fun f => f.dataUrl)
        colorize 0 fte).images := rfl
  rw [himg]
  refine hpair.imp ?_
  intro a b hlt heq
  rw [renderId_eq_imp_idIndex_eq numStr a b heq] at hlt
  exact lt_irrefl _ hlt

/-- C10: the frames an enhancement run processes are exactly the
extracted frames whose timestamp is in the selection, kept in extraction
order; selection membership alone (not insertion order) determines them;
the produced images carry their original timestamps as a subsequence of
that order; and the reference index `n / 2` is taken with respect to
that same order. -/
theorem c10_enhancement_follows_extraction_order (frames : List ExtractedFrame)
    (sel : Finset ℚ) (colorize : Bool) (enhancer : ℕ → Option (List GenPart))
    (o : EnhanceOutcome)
    (ho : handleEnhanceFrames frames sel colorize enhancer (fun _ => false) = some o) :
    framesToEnhance frames sel = frames.filter (fun f => decide (f.timestamp ∈ sel)) ∧
    (∀ l1 l2 : List ℚ, (∀ t : ℚ, t ∈ l1 ↔ t ∈ l2) →
      framesToEnhance frames l1.toFinset = framesToEnhance frames l2.toFinset) ∧
    o.calls.map (fun c => c.target) = framesToEnhance frames sel ∧
    ((o.images.map fun a => a.originalTimestamp).Sublist
      ((framesToEnhance frames sel).map fun f => f.timestamp)) ∧
    o.referenceFrame =
      (framesToEnhance frames sel).get? ((framesToEnhance frames sel).length / 2) := by
  obtain ⟨h0, rfl⟩ :=
    handleEnhanceFrames_eq_some frames sel colorize enhancer (fun _ => false) o ho
  have hloop := enhanceLoop_no_cancel enhancer (fun _ => false)
    (((framesToEnhance frames sel).get? ((framesToEnhance frames sel).length / 2)).map
      fun f => f.dataUrl) colorize (framesToEnhance frames sel) 0 (fun _ _ => rfl)
  refine ⟨rfl, ?_, ?_, ?_, rfl⟩
  · intro l1 l2 h
    unfold framesToEnhance
    refine List.filter_congr ?_
    intro f _
    refine decide_eq_decide.mpr ?_
    rw [List.mem_toFinset, List.mem_toFinset]
    exact ⟨fun hm => (h f.timestamp).mp hm, fun hm => (h f.timestamp).mpr hm⟩
  · show (enhanceLoop enhancer (fun _ => false) _ colorize 0
      (framesToEnhance frames sel)).calls.map (fun c => c.target) = _
    rw [hloop]
    simp only
    rw [List.map_map]
    exact List.map_id _
  · show ((enhanceLoop enhancer (fun _ => false) _ colorize 0
      (framesToEnhance frames sel)).images.map fun a => a.originalTimestamp).Sublist _
    rw [hloop]
    exact imagesOf_timestamps_sublist enhancer (framesToEnhance frames sel) 0

theorem c10_enhancement_follows_extraction_order_witness :
    framesToEnhance [⟨0, "a"⟩, ⟨1, "b"⟩, ⟨2, "c"⟩] {2, 0} =
      List.filter (fun f => decide (f.timestamp ∈ ({2, 0} : Finset ℚ)))
        [⟨0, "a"⟩, ⟨1, "b"⟩, ⟨2, "c"⟩] ∧
    (∀ l1 l2 : List ℚ, (∀ t : ℚ, t ∈ l1 ↔ t ∈ l2) →
      framesToEnhance [⟨0, "a"⟩, ⟨1, "b"⟩, ⟨2, "c"⟩] l1.toFinset =
        framesToEnhance [⟨0, "a"⟩, ⟨1, "b"⟩, ⟨2, "c"⟩] l2.toFinset) ∧
    (enhanceCore (framesToEnhance [⟨0, "a"⟩, ⟨1, "b"⟩, ⟨2, "c"⟩] {2, 0}) true
        (fun _ => some [⟨some ("image/png", "zzz")⟩]) (fun _ => false)).calls.map
        (fun c => c.target) = framesToEnhance [⟨0, "a"⟩, ⟨1, "b"⟩, ⟨2, "c"⟩] {2, 0} ∧
    (((enhanceCore (framesToEnhance [⟨0, "a"⟩, ⟨1, "b"⟩, ⟨2, "c"⟩] {2, 0}) true
        (fun _ => some [⟨some ("image/png", "zzz")⟩]) (fun _ => false)).images.map
        fun a => a.originalTimestamp).Sublist
      ((framesToEnhance [⟨0, "a"⟩, ⟨1, "b"⟩, ⟨2, "c"⟩] {2, 0}).map fun f => f.timestamp)) ∧
    (enhanceCore (framesToEnhance [⟨0, "a"⟩, ⟨1, "b"⟩, ⟨2, "c"⟩] {2, 0}) true
        (fun _ => some [⟨some ("image/png", "zzz")⟩]) (fun _ => false)).referenceFrame =
      (framesToEnhance [⟨0, "a"⟩, ⟨1, "b"⟩, ⟨2, "c"⟩] {2, 0}).get?
        ((framesToEnhance [⟨0, "a"⟩, ⟨1, "b"⟩, ⟨2, "c"⟩] {2, 0}).length / 2) :=
  c10_enhancement_follows_extraction_order [⟨0, "a"⟩, ⟨1, "b"⟩, ⟨2, "c"⟩] {2, 0} true
    (fun _ => some [⟨some ("image/png", "zzz")⟩]) _ rfl

/-- C1 counterexample: in the current variant, for the segment
`[0, 13/10)` at `fps = 2` the sampler visits `N = floor(D * fps) = 2`
samples, but sample `1` is captured at `1/2` — the rigid `1/fps` stride
— not at `startTime + 1 * (D / N) = 13/20` as the claim states; a full
accepting run records the timestamps `[0, 1/2]`. -/
theorem c1_rigid_stride_counterexample :
    totalFramesToProcess 0 (13 / 10) 2 = 2 ∧
    (handleExtractFrames true true 0 (13 / 10) 2 Gender.All (fun _ => some "Yes")
      (fun _ => true) (fun _ => false) (fun _ => "")).accepted.map
        (fun f => f.timestamp) = [0, 1 / 2] ∧
    sampleTime 0 2 1 ≠
      0 + (1 : ℚ) * ((13 / 10 - 0) / (totalFramesToProcess 0 (13 / 10) 2 : ℚ)) := by
  have htot : totalFramesToProcess 0 (13 / 10) 2 = 2 := by
    rw [totalFramesToProcess, frameInterval]
    rw [show ⌊((13 : ℚ) / 10 - 0) / (1 / ((2 : ℕ) : ℚ))⌋ = 2 from by norm_num]
    rfl
  refine ⟨htot, ?_, ?_⟩
  · rw [handleExtractFrames_run 0 (13 / 10) 2 Gender.All (fun _ => some "Yes")
      (fun _ => true) (fun _ => "") (by norm_num)]
    rw [htot]
    show (((List.range 2).filter (acceptSample (fun _ => some "Yes") (fun _ => true)
      Gender.All)).map (mkFrame (fun _ => "") 0 2)).map (fun f => f.timestamp) =
      [0, 1 / 2]
    rw [show (List.range 2).filter (acceptSample (fun _ => some "Yes") (fun _ => true)
      Gender.All) = [0, 1] from by decide]
    show [sampleTime 0 2 0, sampleTime 0 2 1] = [0, 1 / 2]
    rw [sampleTime, sampleTime, frameInterval]
    norm_num
  · rw [htot, sampleTime, frameInterval]
    norm_num

/-- C1 amended: in the current variant the sampler visits exactly
`N = floor(D * fps)` samples (the `floor(D / (1/fps))` of the code equals it),
sample `0` is at `startTime` and every sample lies in
`[startTime, endTime)`, but sample `i` is at `startTime + i * (1/fps)` —
a rigid `1/fps` stride.  The evenly-spaced formula
`startTime + i * (D / N)` of the claim is the schedule of the older `App.tsx` variant. -/
theorem c1_sampling_schedule (startTime endTime : ℚ) (fps : ℕ) (gender : Gender)
    (classify : ℕ → Option String) (seekOk : ℕ → Bool) (capture : ℕ → String)
    (hfps : 0 < fps) (hseg : startTime < endTime) :
    totalFramesToProcess startTime endTime fps =
      (⌊(endTime - startTime) * (fps : ℚ)⌋).toNat ∧
    (handleExtractFrames true true startTime endTime fps gender classify seekOk
      (fun _ => false) capture).samplerCalls =
        totalFramesToProcess startTime endTime fps ∧
    (∀ i : ℕ, sampleTime startTime fps i = startTime + (i : ℚ) * (1 / (fps : ℚ))) ∧
    sampleTime startTime fps 0 = startTime ∧
    (∀ i : ℕ, i < totalFramesToProcess startTime endTime fps →
      startTime ≤ sampleTime startTime fps i ∧ sampleTime startTime fps i < endTime) ∧
    (∀ j : ℕ, appSampleTime startTime endTime fps j =
      startTime + (j : ℚ) *
        ((endTime - startTime) / (totalFramesToExtract startTime endTime fps : ℚ))) := by
  have hcount : totalFramesToProcess startTime endTime fps =
      (⌊(endTime - startTime) * (fps : ℚ)⌋).toNat := by
    rw [totalFramesToProcess, frameInterval, div_div_eq_mul_div, div_one]
  have hfq : (0 : ℚ) < (fps : ℚ) := by exact_mod_cast hfps
  refine ⟨hcount, ?_, fun i => rfl, ?_, ?_, ?_⟩
  · rw [handleExtractFrames_run startTime endTime fps gender classify seekOk capture
      (by linarith)]
  · rw [sampleTime]
    simp
  · intro i hi
    constructor
    · rw [sampleTime, frameInterval]
      have hnn : (0 : ℚ) ≤ (i : ℚ) * (1 / (fps : ℚ)) := by positivity
      linarith
    · rw [hcount] at hi
      have hzi : (i : ℤ) < ⌊(endTime - startTime) * (fps : ℚ)⌋ := Int.lt_toNat.mp hi
      have hq : ((i : ℤ) + 1 : ℚ) ≤ (endTime - startTime) * (fps : ℚ) := by
        have := Int.le_floor.mp (Int.add_one_le_of_lt hzi)
        exact_mod_cast this
      have hiq : (i : ℚ) < (endTime - startTime) * (fps : ℚ) := by push_cast at hq; linarith
      rw [sampleTime, frameInterval, mul_one_div]
      have hdiv : (i : ℚ) / (fps : ℚ) < endTime - startTime :=
        (div_lt_iff₀ hfq).mpr hiq
      linarith
  · intro j
    rw [appSampleTime, div_mul_eq_mul_div, mul_div_assoc]

theorem c1_sampling_schedule_witness :
    totalFramesToProcess 0 (13 / 10) 2 = (⌊((13 : ℚ) / 10 - 0) * ((2 : ℕ) : ℚ)⌋).toNat ∧
    (handleExtractFrames true true 0 (13 / 10) 2 Gender.All (fun _ => some "Yes")
      (fun _ => true) (fun _ => false) (fun _ => "")).samplerCalls =
        totalFramesToProcess 0 (13 / 10) 2 ∧
    (∀ i : ℕ, sampleTime 0 2 i = 0 + (i : ℚ) * (1 / ((2 : ℕ) : ℚ))) ∧
    sampleTime 0 2 0 = 0 ∧
    (∀ i : ℕ, i < totalFramesToProcess 0 (13 / 10) 2 →
      (0 : ℚ) ≤ sampleTime 0 2 i ∧ sampleTime 0 2 i < 13 / 10) ∧
    (∀ j : ℕ, appSampleTime 0 (13 / 10) 2 j =
      0 + (j : ℚ) * (((13 : ℚ) / 10 - 0) / (totalFramesToExtract 0 (13 / 10) 2 : ℚ))) :=
  c1_sampling_schedule 0 (13 / 10) 2 Gender.All (fun _ => some "Yes") (fun _ => true)
    (fun _ => "") (by norm_num) (by norm_num)

end GetImage
